import Mathlib

/-!
Shallow embedding of the todo-list mobile front-end (HomeScreen, AppNavigator,
App) and proofs of the specification claims about it.

The embedding follows the TypeScript source: the `Task` record, the `API_URL`
constant, the filtering and sorting of the displayed list, the HTTP requests
issued by `fetchTasks`, `handleToggleComplete` and `handleDelete`, and the
navigation actions `handleEdit` and `handleAdd`.  JavaScript `Date.getTime`
is abstracted by a parameter `getTime : String → Int` (milliseconds since the
epoch); `Array.prototype.sort` (stable since ES2019) is modelled by
`List.mergeSort` with the source comparator.
-/

namespace TodoApp

/-- Task record, from the `Task` interface of the source. -/
structure Task where
  id : String
  title : String
  description : Option String
  dueDate : Option String
  isCompleted : Bool
  createdAt : String
deriving DecidableEq, Repr

/-- Base URL of the task API, from the `API_URL` constant of the source. -/
def API_URL : String := "http://10.0.2.2:3000/api/tasks"

/-- Whether the character list `sub` occurs at the start of `l`. -/
def leadsWith : List Char → List Char → Bool
  | _, [] => true
  | [], _ :: _ => false
  | c :: cs, d :: ds => (c == d) && leadsWith cs ds

/-- Whether the character list `sub` occurs contiguously anywhere in `hay`. -/
def occursIn : List Char → List Char → Bool
  | [], sub => sub.isEmpty
  | hay@(_ :: t), sub => leadsWith hay sub || occursIn t sub

/-- JavaScript `String.prototype.toLowerCase`, mapping each character to its
lower-case form (`String.toLower` of the standard library, written on the
underlying character list so that it evaluates by kernel reduction). -/
def jsToLower (s : String) : String :=
  ⟨s.data.map Char.toLower⟩

/-- JavaScript `String.prototype.includes`: `sub` is a substring of `s`. -/
def jsIncludes (s sub : String) : Bool :=
  occursIn s.data sub.data

/-- Filter predicate of `filteredTasks` in the source:
`task.title.toLowerCase().includes(q.toLowerCase()) ||
 (task.description?.toLowerCase().includes(q.toLowerCase()))`,
where the optional chain on a missing description yields a falsy value. -/
def taskMatches (q : String) (t : Task) : Bool :=
  jsIncludes (jsToLower t.title) (jsToLower q) ||
    (match t.description with
     | some d => jsIncludes (jsToLower d) (jsToLower q)
     | none => false)

/-- Sort comparator of `filteredTasks` in the source: incomplete tasks first,
then ascending by the parsed `createdAt` time. -/
def taskCmp (getTime : String → Int) (a b : Task) : Int :=
  if a.isCompleted != b.isCompleted then
    (if a.isCompleted then 1 else -1)
  else
    getTime a.createdAt - getTime b.createdAt

/-- The displayed list: `tasks.filter(...).sort(...)` of the source. -/
def filteredTasks (getTime : String → Int) (tasks : List Task) (q : String) :
    List Task :=
  (tasks.filter (taskMatches q)).mergeSort
    (fun a b => decide (taskCmp getTime a b ≤ 0))

theorem occursIn_nil (l : List Char) : occursIn l [] = true := by
  cases l <;> simp [occursIn, leadsWith]

theorem jsIncludes_empty (s : String) : jsIncludes s "" = true := by
  simpa [jsIncludes] using occursIn_nil s.data

theorem taskMatches_empty (t : Task) : taskMatches "" t = true := by
  have h : jsIncludes (jsToLower t.title) (jsToLower "") = true := by
    have he : jsToLower "" = "" := rfl
    rw [he]
    exact jsIncludes_empty _
  simp [taskMatches, h]

theorem taskCmp_total (getTime : String → Int) (a b : Task) :
    taskCmp getTime a b ≤ 0 ∨ taskCmp getTime b a ≤ 0 := by
  cases ha : a.isCompleted <;> cases hb : b.isCompleted <;>
    simp [taskCmp, ha, hb] <;> omega

theorem taskCmp_trans (getTime : String → Int) (a b c : Task)
    (hab : taskCmp getTime a b ≤ 0) (hbc : taskCmp getTime b c ≤ 0) :
    taskCmp getTime a c ≤ 0 := by
  cases ha : a.isCompleted <;> cases hb : b.isCompleted <;>
    cases hc : c.isCompleted <;>
    simp_all [taskCmp] <;> omega

theorem mem_filteredTasks (getTime : String → Int) (tasks : List Task)
    (q : String) (t : Task) :
    t ∈ filteredTasks getTime tasks q ↔ t ∈ tasks ∧ taskMatches q t = true := by
  simp [filteredTasks, List.mem_mergeSort, List.mem_filter]

theorem pairwise_filteredTasks (getTime : String → Int) (tasks : List Task)
    (q : String) :
    (filteredTasks getTime tasks q).Pairwise
      (fun a b => taskCmp getTime a b ≤ 0) := by
  have h := @List.sorted_mergeSort Task
    (fun a b => decide (taskCmp getTime a b ≤ 0))
    (fun a b c hab hbc => by
      simpa using taskCmp_trans getTime a b c (by simpa using hab)
        (by simpa using hbc))
    (fun a b => by
      rcases taskCmp_total getTime a b with h | h <;> simp [h])
    (tasks.filter (taskMatches q))
  refine (List.Pairwise.imp ?_ h)
  intro a b hab
  simpa using hab

/-- HTTP method of an axios call in the source. -/
inductive Method where
  | get
  | post
  | put
  | delete
deriving DecidableEq, Repr

/-- An HTTP request issued by the program: method, full URL, and the
`is_completed` field of the JSON body when the source sends one
(`handleToggleComplete` sends `\x7b is_completed: !task.isCompleted \x7d`). -/
structure Request where
  method : Method
  url : String
  isCompletedBody : Option Bool
deriving DecidableEq, Repr

/-- Component state of `HomeScreen`: the `tasks`, `loading` and `searchQuery`
`useState` hooks. -/
structure HomeState where
  tasks : List Task
  loading : Bool
  searchQuery : String
deriving Repr

/-- Result of running one handler: the HTTP requests it issues in order, the
resulting component state, and the alerts it shows. -/
structure HandlerOutcome where
  requests : List Request
  state : HomeState
  alerts : List String
deriving Repr

/-- The GET request of `fetchTasks`: `axios.get(API_URL)`. -/
def fetchTasksReq : Request :=
  { method := Method.get, url := API_URL, isCompletedBody := none }

/-- Embedding of `fetchTasks`: sets `loading`, issues the GET, on success
stores the response in `tasks`, on failure shows an alert, and in the
`finally` block resets `loading` to `false`.  The network outcome is the
parameter `resp` (`some data` for a successful response, `none` for a
failure). -/
def fetchTasks (s : HomeState) (resp : Option (List Task)) : HandlerOutcome :=
  { requests := [fetchTasksReq]
    state :=
      match resp with
      | some data => { s with tasks := data, loading := false }
      | none => { s with loading := false }
    alerts :=
      match resp with
      | some _ => []
      | none => ["Görevler yüklenirken bir sorun oluştu. Backend çalışıyor mu?"] }

/-- The PUT request of `handleToggleComplete`:
`axios.put(API_URL + "/" + task.id, \x7b is_completed: !task.isCompleted \x7d)`. -/
def toggleReq (t : Task) : Request :=
  { method := Method.put
    url := API_URL ++ "/" ++ t.id
    isCompletedBody := some (!t.isCompleted) }

/-- Embedding of `handleToggleComplete`: issues the PUT; on success it runs
`fetchTasks` (with network outcome `resp`), on failure it shows an alert and
leaves the state unchanged. -/
def handleToggleComplete (s : HomeState) (t : Task) (putOk : Bool)
    (resp : Option (List Task)) : HandlerOutcome :=
  if putOk then
    let f := fetchTasks s resp
    { requests := toggleReq t :: f.requests, state := f.state, alerts := f.alerts }
  else
    { requests := [toggleReq t]
      state := s
      alerts := ["Görevin durumunu güncellerken hata oluştu."] }

/-- The DELETE request of `handleDelete`: `axios.delete(API_URL + "/" + id)`. -/
def deleteReq (id : String) : Request :=
  { method := Method.delete, url := API_URL ++ "/" ++ id, isCompletedBody := none }

/-- Embedding of `handleDelete`: shows a confirmation alert; when the user
confirms (`confirmed = true`) it issues the DELETE and on success runs
`fetchTasks`, on failure shows an alert; on cancel nothing happens. -/
def handleDelete (s : HomeState) (id : String) (confirmed : Bool)
    (delOk : Bool) (resp : Option (List Task)) : HandlerOutcome :=
  if confirmed then
    if delOk then
      let f := fetchTasks s resp
      { requests := deleteReq id :: f.requests, state := f.state, alerts := f.alerts }
    else
      { requests := [deleteReq id]
        state := s
        alerts := ["Görev silinirken hata oluştu."] }
  else
    { requests := [], state := s, alerts := [] }

/-- Modelled from the spec: the add/edit screen (`src/screens/AddEditScreen`,
imported by `AppNavigator` but absent from the sources) completes the task
CRUD of "calling four REST endpoints" over the same task API, so it is
modelled as issuing the create call (POST to the collection URL) when opened
without a task id, and the update call (PUT to the item URL) when editing an
existing task. -/
def addEditRequests (taskId : Option String) : List Request :=
  match taskId with
  | none => [{ method := Method.post, url := API_URL, isCompletedBody := none }]
  | some id => [{ method := Method.put, url := API_URL ++ "/" ++ id, isCompletedBody := none }]

/-- A request is issuable by the program if some handler of `HomeScreen`, or
the modelled add/edit screen, can emit it. -/
def ProgramIssues (r : Request) : Prop :=
  (∃ s resp, r ∈ (fetchTasks s resp).requests) ∨
  (∃ s t putOk resp, r ∈ (handleToggleComplete s t putOk resp).requests) ∨
  (∃ s id confirmed delOk resp, r ∈ (handleDelete s id confirmed delOk resp).requests) ∨
  (∃ taskId, r ∈ addEditRequests taskId)

/-- REST endpoint of a request: its method together with whether the URL is
the bare collection URL (`true`) or an item URL `API_URL/<id>` (`false`). -/
def endpointClass (r : Request) : Method × Bool :=
  (r.method, decide (r.url = API_URL))

/-- The four REST endpoints of the task API: read the collection, create,
update an item, delete an item. -/
def fourEndpoints : List (Method × Bool) :=
  [(Method.get, true), (Method.post, true), (Method.put, false), (Method.delete, false)]

/-- Route parameters of the `add_edit` route, from `RootStackParamList`. -/
structure AddEditParams where
  taskId : Option String
deriving DecidableEq, Repr

/-- A navigation action: `navigation.navigate(route, params)`. -/
inductive NavAction where
  | navigate (route : String) (params : Option AddEditParams)
deriving DecidableEq, Repr

/-- Embedding of `handleEdit`:
`navigation.navigate("add_edit", \x7b taskId: id \x7d)`. -/
def handleEdit (id : String) : NavAction :=
  NavAction.navigate "add_edit" (some { taskId := some id })

/-- Embedding of `handleAdd`: `navigation.navigate("add_edit", undefined)`. -/
def handleAdd : NavAction :=
  NavAction.navigate "add_edit" none

/-- Screen components registered in the navigator. -/
inductive ScreenComponent where
  | homeScreen
  | addEditScreen
deriving DecidableEq, Repr

/-- One `Stack.Screen` entry of `AppNavigator`. -/
structure StackScreenDef where
  name : String
  component : ScreenComponent
  headerShown : Bool
deriving DecidableEq, Repr

/-- A native stack navigator: its `initialRouteName` and its screens. -/
structure NavigatorDef where
  initialRouteName : String
  screens : List StackScreenDef
deriving DecidableEq, Repr

/-- Embedding of `AppNavigator`: a single stack with the `home` and
`add_edit` screens and initial route `home`; `App` renders exactly this
navigator inside `SafeAreaProvider`. -/
def appNavigator : NavigatorDef :=
  { initialRouteName := "home"
    screens :=
      [ { name := "home", component := ScreenComponent.homeScreen, headerShown := false }
      , { name := "add_edit", component := ScreenComponent.addEditScreen, headerShown := false } ] }

/-- Specification-side notion of "contains the query case-insensitively":
after lower-casing both strings, the query occurs contiguously in the
subject. -/
def containsCI (s q : String) : Prop :=
  ∃ pre post, (jsToLower s).data = pre ++ (jsToLower q).data ++ post

theorem leadsWith_iff (sub l : List Char) :
    leadsWith l sub = true ↔ ∃ r, l = sub ++ r := by
  induction sub generalizing l with
  | nil =>
    cases l <;> simp [leadsWith]
  | cons d ds ih =>
    cases l with
    | nil => simp [leadsWith]
    | cons c cs =>
      simp [leadsWith, ih cs]

theorem occursIn_iff (hay sub : List Char) :
    occursIn hay sub = true ↔ ∃ pre post, hay = pre ++ sub ++ post := by
  induction hay with
  | nil =>
    simp [occursIn, List.isEmpty_iff]
  | cons h t ih =>
    rw [occursIn]
    simp only [Bool.or_eq_true, leadsWith_iff, ih]
    constructor
    · rintro (⟨r, hr⟩ | ⟨pre, post, hp⟩)
      · exact ⟨[], r, by simp [hr]⟩
      · exact ⟨h :: pre, post, by simp [hp]⟩
    · rintro ⟨pre, post, hp⟩
      cases pre with
      | nil => exact Or.inl ⟨post, by simpa using hp⟩
      | cons p ps =>
        simp at hp
        exact Or.inr ⟨ps, post, by simp [hp.2]⟩

theorem jsIncludes_iff (s sub : String) :
    jsIncludes s sub = true ↔ ∃ pre post, s.data = pre ++ sub.data ++ post :=
  occursIn_iff s.data sub.data

theorem taskMatches_iff (q : String) (t : Task) :
    taskMatches q t = true ↔
      containsCI t.title q ∨
        ∃ d, t.description = some d ∧ containsCI d q := by
  rcases hd : t.description with _ | d
  · simp [taskMatches, hd, containsCI, jsIncludes_iff, jsToLower]
  · simp [taskMatches, hd, containsCI, jsIncludes_iff, jsToLower]

theorem itemUrl_ne_base (id : String) : API_URL ++ "/" ++ id ≠ API_URL := by
  intro h
  have hl := congrArg String.length h
  simp [String.length_append] at hl
  have hone : ("/" : String).length = 1 := rfl
  omega

theorem programIssues_cases (r : Request) (h : ProgramIssues r) :
    r = fetchTasksReq ∨ (∃ t, r = toggleReq t) ∨ (∃ id, r = deleteReq id) ∨
    r = { method := Method.post, url := API_URL, isCompletedBody := none } ∨
    (∃ id, r = { method := Method.put, url := API_URL ++ "/" ++ id,
                 isCompletedBody := none }) := by
  rcases h with ⟨s, resp, hr⟩ | ⟨s, t, putOk, resp, hr⟩ |
    ⟨s, id, confirmed, delOk, resp, hr⟩ | ⟨taskId, hr⟩
  · left
    simpa [fetchTasks] using hr
  · cases putOk with
    | false =>
      simp [handleToggleComplete] at hr
      exact Or.inr (Or.inl ⟨t, hr⟩)
    | true =>
      simp [handleToggleComplete, fetchTasks] at hr
      rcases hr with hr | hr
      · exact Or.inr (Or.inl ⟨t, hr⟩)
      · exact Or.inl hr
  · cases confirmed with
    | false => simp [handleDelete] at hr
    | true =>
      cases delOk with
      | false =>
        simp [handleDelete] at hr
        exact Or.inr (Or.inr (Or.inl ⟨id, hr⟩))
      | true =>
        simp [handleDelete, fetchTasks] at hr
        rcases hr with hr | hr
        · exact Or.inr (Or.inr (Or.inl ⟨id, hr⟩))
        · exact Or.inl hr
  · cases taskId with
    | none =>
      simp [addEditRequests] at hr
      exact Or.inr (Or.inr (Or.inr (Or.inl hr)))
    | some id =>
      simp [addEditRequests] at hr
      exact Or.inr (Or.inr (Or.inr (Or.inr ⟨id, hr⟩)))

theorem programIssues_fetchReq : ProgramIssues fetchTasksReq := by
  unfold ProgramIssues
  exact Or.inl ⟨⟨[], false, ""⟩, none, by simp [fetchTasks]⟩

theorem programIssues_createReq :
    ProgramIssues { method := Method.post, url := API_URL, isCompletedBody := none } := by
  unfold ProgramIssues
  exact Or.inr (Or.inr (Or.inr ⟨none, by simp [addEditRequests]⟩))

theorem programIssues_toggleReq (t : Task) : ProgramIssues (toggleReq t) := by
  unfold ProgramIssues
  exact Or.inr (Or.inl ⟨⟨[], false, ""⟩, t, false, none, by simp [handleToggleComplete]⟩)

theorem programIssues_deleteReq (id : String) : ProgramIssues (deleteReq id) := by
  unfold ProgramIssues
  exact Or.inr (Or.inr (Or.inl ⟨⟨[], false, ""⟩, id, true, false, none,
    by simp [handleDelete]⟩))

/-- C1: the program's networking consists of exactly four distinct REST
endpoints of the task API — every request any handler can issue falls in one
of the four endpoint classes (GET collection, POST collection, PUT item,
DELETE item), each of the four is actually reachable, and the four are
pairwise distinct. -/
theorem four_rest_endpoints :
    (∀ r, ProgramIssues r → endpointClass r ∈ fourEndpoints) ∧
    (∀ e, e ∈ fourEndpoints → ∃ r, ProgramIssues r ∧ endpointClass r = e) ∧
    fourEndpoints.Nodup ∧ fourEndpoints.length = 4 := by
  refine ⟨?_, ?_, by decide, by decide⟩
  · intro r h
    rcases programIssues_cases r h with rfl | ⟨t, rfl⟩ | ⟨id, rfl⟩ | rfl | ⟨id, rfl⟩
    · simp [endpointClass, fetchTasksReq, fourEndpoints]
    · simp [endpointClass, toggleReq, fourEndpoints,
        decide_eq_false (itemUrl_ne_base t.id)]
    · simp [endpointClass, deleteReq, fourEndpoints,
        decide_eq_false (itemUrl_ne_base id)]
    · simp [endpointClass, fourEndpoints]
    · simp [endpointClass, fourEndpoints, decide_eq_false (itemUrl_ne_base id)]
  · intro e he
    simp only [fourEndpoints, List.mem_cons, List.not_mem_nil, or_false] at he
    rcases he with rfl | rfl | rfl | rfl
    · exact ⟨fetchTasksReq, programIssues_fetchReq, by decide⟩
    · exact ⟨{ method := Method.post, url := API_URL, isCompletedBody := none },
        programIssues_createReq, by decide⟩
    · refine ⟨toggleReq ⟨"1", "", none, none, false, ""⟩,
        programIssues_toggleReq _, ?_⟩
      simp [endpointClass, toggleReq, decide_eq_false (itemUrl_ne_base "1")]
    · refine ⟨deleteReq "1", programIssues_deleteReq _, ?_⟩
      simp [endpointClass, deleteReq, decide_eq_false (itemUrl_ne_base "1")]

/-- C2: a task of the fetched list appears in the displayed list exactly when
its title contains the query case-insensitively, or it has a description that
contains the query case-insensitively; with the empty query every task of the
fetched list is displayed. -/
theorem filteredTasks_membership (getTime : String → Int) (tasks : List Task)
    (q : String) (t : Task) (ht : t ∈ tasks) :
    (t ∈ filteredTasks getTime tasks q ↔
      containsCI t.title q ∨ ∃ d, t.description = some d ∧ containsCI d q) ∧
    t ∈ filteredTasks getTime tasks "" := by
  constructor
  · rw [mem_filteredTasks, ← taskMatches_iff]
    simp [ht]
  · rw [mem_filteredTasks]
    exact ⟨ht, taskMatches_empty t⟩

theorem filteredTasks_membership_witness :
    (⟨"1", "Alpha", none, none, false, "now"⟩ : Task) ∈
      filteredTasks (fun _ => 0) [⟨"1", "Alpha", none, none, false, "now"⟩] "" :=
  (filteredTasks_membership (fun _ => 0)
    [⟨"1", "Alpha", none, none, false, "now"⟩] "al"
    ⟨"1", "Alpha", none, none, false, "now"⟩ (by simp)).2

/-- C3: in the displayed list every incomplete task precedes every completed
task, and among tasks with equal completion status the parsed `createdAt`
times are in ascending order. -/
theorem filteredTasks_order (getTime : String → Int) (tasks : List Task)
    (q : String) :
    (filteredTasks getTime tasks q).Pairwise (fun a b =>
      (a.isCompleted = false ∧ b.isCompleted = true) ∨
      (a.isCompleted = b.isCompleted ∧
        getTime a.createdAt ≤ getTime b.createdAt)) := by
  refine List.Pairwise.imp ?_ (pairwise_filteredTasks getTime tasks q)
  intro a b hab
  by_cases h : a.isCompleted = b.isCompleted
  · right
    refine ⟨h, ?_⟩
    simp [taskCmp, h] at hab
    omega
  · left
    cases ha : a.isCompleted <;> cases hb : b.isCompleted <;>
      simp_all [taskCmp]

/-- C4: the application registers exactly two screens — the list view under
`home` and the add/edit view under `add_edit` — in a single stack whose
initial route is `home`. -/
theorem appNavigator_two_screens :
    appNavigator.screens.length = 2 ∧
    appNavigator.screens.map StackScreenDef.name = ["home", "add_edit"] ∧
    appNavigator.screens.map StackScreenDef.component =
      [ScreenComponent.homeScreen, ScreenComponent.addEditScreen] ∧
    appNavigator.initialRouteName = "home" :=
  ⟨rfl, rfl, rfl, rfl⟩

/-- C5: every request the program can issue targets the single task API —
its URL is the base URL or the base URL extended with `/` and a task id. -/
theorem requests_single_api (r : Request) (h : ProgramIssues r) :
    r.url = API_URL ∨ ∃ id, r.url = API_URL ++ "/" ++ id := by
  rcases programIssues_cases r h with rfl | ⟨t, rfl⟩ | ⟨id, rfl⟩ | rfl | ⟨id, rfl⟩
  · exact Or.inl rfl
  · exact Or.inr ⟨t.id, rfl⟩
  · exact Or.inr ⟨id, rfl⟩
  · exact Or.inl rfl
  · exact Or.inr ⟨id, rfl⟩

theorem requests_single_api_witness :
    fetchTasksReq.url = API_URL ∨ ∃ id, fetchTasksReq.url = API_URL ++ "/" ++ id :=
  requests_single_api fetchTasksReq programIssues_fetchReq

/-- C6: the list is backed by the REST API — every run of `fetchTasks` (one
per focus of the list screen) issues the collection GET and a successful
response becomes the task state; toggling issues a PUT to the item URL;
a confirmed delete issues a DELETE to the item URL; and after a successful
PUT or DELETE the collection GET is issued again. -/
theorem crud_backed_by_api :
    (∀ s resp, (fetchTasks s resp).requests = [fetchTasksReq]) ∧
    (∀ s data, (fetchTasks s (some data)).state.tasks = data) ∧
    (∀ s t putOk resp, toggleReq t ∈ (handleToggleComplete s t putOk resp).requests) ∧
    (∀ s id delOk resp, deleteReq id ∈ (handleDelete s id true delOk resp).requests) ∧
    (∀ s t resp, (handleToggleComplete s t true resp).requests =
      [toggleReq t, fetchTasksReq]) ∧
    (∀ s id resp, (handleDelete s id true true resp).requests =
      [deleteReq id, fetchTasksReq]) := by
  refine ⟨fun s resp => rfl, fun s data => rfl, ?_, ?_, ?_, ?_⟩
  · intro s t putOk resp
    cases putOk <;> simp [handleToggleComplete, fetchTasks]
  · intro s id delOk resp
    cases delOk <;> simp [handleDelete, fetchTasks]
  · intro s t resp
    simp [handleToggleComplete, fetchTasks]
  · intro s id resp
    simp [handleDelete, fetchTasks]

/-- C7: the displayed list is a permutation of a sublist of the fetched list —
filtering and sorting never create, duplicate or modify a task. -/
theorem filteredTasks_subperm (getTime : String → Int) (tasks : List Task)
    (q : String) :
    List.Subperm (filteredTasks getTime tasks q) tasks :=
  ⟨tasks.filter (taskMatches q), (List.mergeSort_perm _ _).symm,
    List.filter_sublist _⟩

/-- C8: when the GET of `fetchTasks` fails, the task state and search query
are unchanged and exactly one alert is shown; in every outcome the loading
flag ends up `false`. -/
theorem fetchTasks_error_handling :
    (∀ s resp, (fetchTasks s resp).state.loading = false) ∧
    (∀ s, (fetchTasks s none).state.tasks = s.tasks ∧
      (fetchTasks s none).state.searchQuery = s.searchQuery ∧
      (fetchTasks s none).alerts.length = 1) := by
  constructor
  · intro s resp
    cases resp <;> rfl
  · intro s
    exact ⟨rfl, rfl, rfl⟩

/-- C9: pressing edit navigates to `add_edit` carrying exactly the pressed
task id as `taskId`, and pressing add navigates to `add_edit` with no
parameters. -/
theorem navigation_routing (id : String) :
    handleEdit id = NavAction.navigate "add_edit" (some { taskId := some id }) ∧
    handleAdd = NavAction.navigate "add_edit" none :=
  ⟨rfl, rfl⟩

end TodoApp
